import Mathlib

/-!
# A verification development for the messenger backend's chat core

This file gives a shallow embedding of the chat gateway implemented in
`src/SocketHandler.js` (the CommonJS variant, whose line numbers the claims
cite) together with the two message-envelope class variants
(`src/unnamed/part_000` and the class pair at the top of `src/Message.js`),
and proves properties of the room directory, the per-room membership map,
and the outbound event traces of each inbound-event handler.

Modelling conventions:

* `this._rooms : Set` is a `List String` with set discipline (`has` is
  `contains`; `add` only runs under a `!has` guard in the source, so it is a
  plain append there).
* `this._chatUsers : Map` is an insertion-ordered association list
  `List (String × Option (List UserEntry))`.  The `Option` on the value side
  represents the possibility of a stored `undefined` value, which
  `disconnectUser` explicitly tests for (`if (room[1] === undefined) return`);
  `Map.get` on a missing key also yields `undefined`, which `mget` reflects
  by flattening both cases to `none`.  `Map.set` on an existing key keeps the
  key's original position; on a fresh key it appends — `mset` mirrors this.
* `Math.random().toString(36).substr(2, 15)` (in `SocketHandler.getId` and in
  the `Message` constructor of `src/unnamed/part_000`) is an opaque fresh
  draw; it is modelled as an injective draw indexed by a counter threaded
  through the state (`HState.nextId`).  No claim depends on the concrete
  identifier strings, only on when draws happen.
* `new Date().toUTCString()` is a clock read; functions embedding code that
  reads the clock take the reading as an explicit argument.
* Socket.io emission targets are kept abstract as three audiences:
  `socket.emit` (the requester only), `socket.to(room).emit` (members of the
  room except the requester), and `this._io.to(room).emit` /
  `this._io.in(room).emit` (all members of the room).
* Array `findIndex(...) !== -1` checks are modelled by `findUserIndex`
  returning `Option Nat`; `splice(i, 1)` is `List.eraseIdx`.
* A handler that throws is embedded in `Except JsError`; the exception
  propagates out of the event callback, so the handler produces no state
  change and no emissions past the throwing statement.
-/

/-- One element of a room's member array: the object
`{userName: socket.handshake.query.clientName, userId: socket.id}` built in
`addUserToServerStorage`. -/
structure UserEntry where
  userName : String
  userId : String
deriving Repr, DecidableEq

/-- The per-connection data the handlers read from the socket:
`socket.id` and `socket.handshake.query.clientName`. -/
structure Sock where
  id : String
  clientName : String
deriving Repr, DecidableEq

/-- Runtime exceptions the handlers can raise. -/
inductive JsError
  /-- `new Message(...)` in `newMessage` (src/SocketHandler.js line 289):
  the identifier `Message` is never bound in that module (it only requires
  socket.io), so evaluating the expression throws a ReferenceError. -/
  | referenceErrorMessageIsNotDefined
  /-- `currentUsers.findIndex(...)` in `removeUserFromServerStorage`
  (line 244) when `this._chatUsers.get(args.roomName)` returned `undefined`:
  a TypeError. -/
  | typeErrorFindIndexOfUndefined
deriving Repr, DecidableEq

/-- Outbound event payloads, one constructor per distinct emitted shape.
The socket.io event names are recorded in each constructor's comment. -/
inductive OutMsg
  /-- event `connected` (line 50): a plain text payload. -/
  | connectedNotice (text : String)
  /-- event `room_created` (lines 210-212): `{roomName}`. -/
  | roomCreated (roomName : String)
  /-- event `room_already_exist` (line 204): a plain text payload. -/
  | roomAlreadyExist (text : String)
  /-- event `room_joined` (lines 145-147): `{roomName}`. -/
  | roomJoined (roomName : String)
  /-- event `room_not_exit` (line 159): a plain text payload. -/
  | roomNotExit (text : String)
  /-- event `already_joined` (line 175): a plain text payload. -/
  | alreadyJoined (text : String)
  /-- event `user_left_chat` (lines 106-111 and 267-272): the system
  message `{messageId, messageText, messageRoomName, messageSystem}`. -/
  | userLeftChat (messageId messageText messageRoomName : String)
      (messageSystem : Bool)
  /-- event `new_message_in_room` as emitted by `joinRoom` (lines 148-153):
  a system message `{messageId, messageText, messageRoomName,
  messageSystem}`. -/
  | newMessageInRoomSystem (messageId messageText messageRoomName : String)
      (messageSystem : Bool)
  /-- event `new_message_in_room` as emitted by `newMessage` (lines
  291-298): `{messageId, messageTime, messageRoomName, messageText,
  messageSender, messageSystem}`, where `messageSystem` is copied from the
  client-supplied `args.system` (absent args give `undefined`, hence the
  `Option`). -/
  | newMessageInRoomUser (messageId messageTime messageRoomName messageText
      messageSender : String) (messageSystem : Option Bool)
  /-- event `room_users_list` (lines 112-115, 154-157, 213-216, 273-276):
  `{chatUsers, roomName}` where `chatUsers` is whatever
  `this._chatUsers.get(roomName)` returns at emit time (possibly
  `undefined`). -/
  | roomUsersList (chatUsers : Option (List UserEntry)) (roomName : String)
deriving Repr, DecidableEq

/-- One outbound emission: a payload with its audience. -/
inductive Emit
  /-- `socket.emit(...)`: delivered to the requesting session only. -/
  | toRequester (m : OutMsg)
  /-- `socket.to(room).emit(...)`: delivered to every member of `room`
  except the requesting session. -/
  | toRoomExceptRequester (room : String) (m : OutMsg)
  /-- `this._io.to(room).emit(...)` and `this._io.in(room).emit(...)`:
  delivered to every member of `room`. -/
  | toRoomAll (room : String) (m : OutMsg)
deriving Repr, DecidableEq

/-- The mutable state of a `SocketHandler` instance: the `_rooms` set, the
`_chatUsers` map, and the counter indexing the opaque random draws of
`getId`. -/
structure HState where
  rooms : List String
  chatUsers : List (String × Option (List UserEntry))
  nextId : Nat
deriving Repr, DecidableEq

/-- The state of a freshly constructed `SocketHandler`: empty room set,
empty user map. -/
def initState : HState := { rooms := [], chatUsers := [], nextId := 0 }

/-- Models `SocketHandler.getId` (lines 83-85), i.e.
`Math.random().toString(36).substr(2, 15)`: the random draw indexed by the
state's counter.  The spec notes a monotonic counter and the random
generator are functionally interchangeable here; no claim depends on the
concrete strings. -/
def getId (n : Nat) : String := "id" ++ toString n

/-- `this._chatUsers.get(k)`: the stored value for `k`, where both a missing
key and a stored `undefined` read back as `undefined` (`none`). -/
def mget (m : List (String × Option (List UserEntry))) (k : String) :
    Option (List UserEntry) :=
  match m with
  | [] => none
  | p :: rest => if p.1 == k then p.2 else mget rest k

/-- `this._chatUsers.set(k, v)`: replace the value at the first occurrence
of `k`, keeping its position; append `(k, v)` if `k` is absent (JS `Map`
insertion-order semantics). -/
def mset (m : List (String × Option (List UserEntry))) (k : String)
    (v : Option (List UserEntry)) : List (String × Option (List UserEntry)) :=
  match m with
  | [] => [(k, v)]
  | p :: rest => if p.1 == k then (k, v) :: rest else p :: mset rest k v

/-- `users.findIndex(entry => entry.userId === sid)`, with the `-1` result
modelled as `none`. -/
def findUserIndex (sid : String) : List UserEntry → Option Nat
  | [] => none
  | u :: rest =>
      if u.userId == sid then some 0
      else (findUserIndex sid rest).map (fun i => i + 1)

/-- The membership list of room `r` as a plain list (reading `undefined` as
the empty list); used only to state properties, never by the handlers. -/
def members (s : HState) (r : String) : List UserEntry :=
  (mget s.chatUsers r).getD []

/-- Embeds `userAlreadyInRoom` (lines 170-180).  Note the emission of
`already_joined` happens inside this check, before it returns `true`; an
empty member array is truthy in JS, so it enters the branch and returns
`false` there. -/
def userAlreadyInRoom (s : HState) (roomName : String) (sock : Sock) :
    Bool × List Emit :=
  match mget s.chatUsers roomName with
  | some currentUsers =>
      match findUserIndex sock.id currentUsers with
      | some _ =>
          (true, [Emit.toRequester (OutMsg.alreadyJoined "You have already joined this room")])
      | none => (false, [])
  | none => (false, [])

/-- Embeds `addUserToServerStorage` (lines 228-232).  The JS ternary on
`currentUsers` treats an empty array as truthy; both branches produce the
same one-element list in that case, so matching on `mget` is faithful. -/
def addUserToServerStorage (s : HState) (roomName : String) (sock : Sock) :
    HState :=
  match mget s.chatUsers roomName with
  | some currentUsers =>
      { s with chatUsers := (mset s.chatUsers roomName
          (some (currentUsers ++ [{ userName := sock.clientName, userId := sock.id }]))) }
  | none =>
      { s with chatUsers := (mset s.chatUsers roomName
          (some [{ userName := sock.clientName, userId := sock.id }])) }

/-- Embeds `removeUserFromServerStorage` (lines 242-250).  When
`this._chatUsers.get(args.roomName)` is `undefined`, the
`currentUsers.findIndex(...)` call on the next line throws a TypeError. -/
def removeUserFromServerStorage (s : HState) (roomName : String)
    (sock : Sock) : Except JsError HState :=
  match mget s.chatUsers roomName with
  | none => Except.error JsError.typeErrorFindIndexOfUndefined
  | some currentUsers =>
      match findUserIndex sock.id currentUsers with
      | some i =>
          Except.ok { s with chatUsers := (mset s.chatUsers roomName
            (some (currentUsers.eraseIdx i))) }
      | none => Except.ok s

/-- Embeds `leaveRoom` (lines 102-116).  `socket.leave(args.roomName)` only
touches transport-level room registration, not this state.  A throw from
`removeUserFromServerStorage` propagates before any emission. -/
def leaveRoom (s : HState) (roomName : String) (sock : Sock) :
    Except JsError (HState × List Emit) :=
  match removeUserFromServerStorage s roomName sock with
  | Except.error e => Except.error e
  | Except.ok s1 =>
      let s2 : HState := { s1 with nextId := s1.nextId + 1 }
      Except.ok (s2,
        [Emit.toRoomExceptRequester roomName
          (OutMsg.userLeftChat (getId s1.nextId)
            ("User " ++ sock.clientName ++ " has left chat") roomName true),
         Emit.toRoomAll roomName
          (OutMsg.roomUsersList (mget s2.chatUsers roomName) roomName)])

/-- Embeds `joinRoom` (lines 139-162): the already-joined check runs first,
then the room-existence check; on success the membership mutation precedes
all three emissions, and the roster payload reads the map after the
mutation. -/
def joinRoom (s : HState) (roomName : String) (sock : Sock) :
    HState × List Emit :=
  match userAlreadyInRoom s roomName sock with
  | (true, es) => (s, es)
  | (false, es) =>
      if s.rooms.contains roomName then
        let s1 := addUserToServerStorage s roomName sock
        let s2 : HState := { s1 with nextId := s1.nextId + 1 }
        (s2, es ++
          [Emit.toRequester (OutMsg.roomJoined roomName),
           Emit.toRoomExceptRequester roomName
            (OutMsg.newMessageInRoomSystem (getId s1.nextId)
              ("User " ++ sock.clientName ++ " has joined chat room") roomName true),
           Emit.toRoomAll roomName
            (OutMsg.roomUsersList (mget s2.chatUsers roomName) roomName)])
      else
        (s, es ++ [Emit.toRequester (OutMsg.roomNotExit "This room doesn't exist")])

/-- Embeds `addRoom` (lines 201-218).  On the duplicate branch nothing is
mutated and only the failure notice goes to the requester; on success the
room is added, the creator auto-joined, and both `room_created` and the
roster go to the requester only (both are `socket.emit`). -/
def addRoom (s : HState) (roomName : String) (sock : Sock) :
    HState × List Emit :=
  if s.rooms.contains roomName then
    (s, [Emit.toRequester (OutMsg.roomAlreadyExist "Room with this name already exist")])
  else
    let s1 : HState := { s with rooms := s.rooms ++ [roomName] }
    let s2 := addUserToServerStorage s1 roomName sock
    (s2, [Emit.toRequester (OutMsg.roomCreated roomName),
          Emit.toRequester
            (OutMsg.roomUsersList (mget s2.chatUsers roomName) roomName)])

/-- Embeds the loop body of `disconnectUser` (lines 258-277) over the
snapshot of `this._chatUsers.entries()`.  The loop only ever overwrites the
key of the entry it is currently visiting, so iterating the snapshot list is
equivalent to iterating the live map.  `if (room[1] === undefined) return`
aborts the whole sweep; an entry whose member array does not contain the
socket is still broadcast to. -/
def disconnectLoop (sock : Sock)
    (entries : List (String × Option (List UserEntry))) (s : HState) :
    HState × List Emit :=
  match entries with
  | [] => (s, [])
  | (_, none) :: _ => (s, [])
  | (r, some users) :: rest =>
      let s1 :=
        match findUserIndex sock.id users with
        | some i =>
            { s with chatUsers := (mset s.chatUsers r
                (some (if users.length == 1 then [] else users.eraseIdx i))) }
        | none => s
      let s2 : HState := { s1 with nextId := s1.nextId + 1 }
      let es : List Emit :=
        [Emit.toRoomAll r
          (OutMsg.userLeftChat (getId s1.nextId)
            ("User " ++ sock.clientName ++ " has disconnected") r true),
         Emit.toRoomAll r
          (OutMsg.roomUsersList (mget s2.chatUsers r) r)]
      let rec2 := disconnectLoop sock rest s2
      (rec2.1, es ++ rec2.2)

/-- Embeds `disconnectUser` (lines 258-277): run the sweep over the entries
of `this._chatUsers`. -/
def disconnectUser (s : HState) (sock : Sock) : HState × List Emit :=
  disconnectLoop sock s.chatUsers s

/-- The payload of a `new_message` inbound event: `{messageText,
messageRoomName}` plus the `system` field `newMessage` reads; an absent
field is `none`. -/
structure NewMessageArgs where
  messageText : String
  messageRoomName : String
  system : Option Bool
deriving Repr, DecidableEq

/-- Embeds `newMessage` (lines 288-299).  Its first statement is
`const message = new Message(args.messageText, args.roomName, ...)`, but the
identifier `Message` is never bound in src/SocketHandler.js (the module only
requires socket.io and exports the class), so every `new_message` event
throws a ReferenceError before the emit statement runs: the handler mutates
nothing and emits nothing. -/
def newMessage (_s : HState) (_args : NewMessageArgs) (_sock : Sock) :
    Except JsError (HState × List Emit) :=
  Except.error JsError.referenceErrorMessageIsNotDefined

/-- The emit statement of `newMessage` (lines 291-298) as it would run were
the throwing constructor call removed — dead code in the source, embedded
to document the divergence: `messageSystem` is copied from the
client-supplied `args.system`, not set to `false`, and the id and clock are
drawn at emit time. -/
def newMessageUnreachableEmit (s : HState) (args : NewMessageArgs)
    (sock : Sock) (now : String) : Emit :=
  Emit.toRoomAll args.messageRoomName
    (OutMsg.newMessageInRoomUser (getId s.nextId) now args.messageRoomName
      args.messageText sock.clientName args.system)

/-- The inbound events the connection handler (lines 48-74) dispatches on,
with the socket they arrive from. -/
inductive InEvent
  | addRoom (roomName : String) (sock : Sock)
  | joinRoom (roomName : String) (sock : Sock)
  | leaveRoom (roomName : String) (sock : Sock)
  | newMessage (args : NewMessageArgs) (sock : Sock)
  | disconnect (sock : Sock)
deriving Repr, DecidableEq

/-- Dispatch of one inbound event to its handler, as wired in
`handleConnection` (lines 48-74). -/
def stepE (s : HState) (e : InEvent) : Except JsError (HState × List Emit) :=
  match e with
  | InEvent.addRoom r sock => Except.ok (addRoom s r sock)
  | InEvent.joinRoom r sock => Except.ok (joinRoom s r sock)
  | InEvent.leaveRoom r sock => leaveRoom s r sock
  | InEvent.newMessage args sock => newMessage s args sock
  | InEvent.disconnect sock => Except.ok (disconnectUser s sock)

/-- The state after one inbound event.  A throwing handler leaves the state
as it was: on both throwing paths (`leaveRoom` on an unknown room,
`newMessage` always) the exception is raised before any mutation of
`_rooms`, `_chatUsers`, or an id draw. -/
def stepState (s : HState) (e : InEvent) : HState :=
  match stepE s e with
  | Except.ok p => p.1
  | Except.error _ => s

/-- The states a `SocketHandler` can be in after any finite sequence of
inbound events from any interleaving of sessions. -/
inductive Reachable : HState → Prop
  | init : Reachable initState
  | step (s : HState) (e : InEvent) : Reachable s → Reachable (stepState s e)

/-- A serialized JSON field value: the strings and booleans the envelopes
carry, plus `undefined` for a field read from a property that was never
assigned. -/
inductive JVal
  | str (s : String)
  | bool (b : Bool)
  | undef
deriving Repr, DecidableEq

namespace Part000

/-- The `Message` class of src/unnamed/part_000: its constructor assigns
`this.id = Math.random().toString(36).substr(2, 15)`, the text, the room
name, `this.timestamp = new Date().toUTCString()`, and `isSystem = true`. -/
structure Message where
  id : String
  text : String
  roomName : String
  timestamp : String
  isSystem : Bool
deriving Repr, DecidableEq

/-- The `Message` constructor of src/unnamed/part_000 (lines 1-8): one
fresh identifier is drawn (the draw counter advances by exactly one) and
the clock is read once; both are fixed in the envelope at construction. -/
def Message.construct (gen : Nat) (now : String) (text roomName : String) :
    Message × Nat :=
  ({ id := getId gen, text := text, roomName := roomName, timestamp := now,
     isSystem := true }, gen + 1)

/-- `Message.toJson` of src/unnamed/part_000 (lines 10-18): a pure function
of the stored fields; `messageId` is the construction-time `this.id`. -/
def Message.toJson (m : Message) : List (String × JVal) :=
  [("messageId", JVal.str m.id), ("messageTime", JVal.str m.timestamp),
   ("messageRoomName", JVal.str m.roomName), ("messageText", JVal.str m.text),
   ("messageSystem", JVal.bool m.isSystem)]

/-- The `UserMessage` subclass of src/unnamed/part_000 (lines 22-27): the
base constructor runs first (drawing the id), then `isSystem` is overwritten
to `false` and the sender stored. -/
structure UserMessage where
  id : String
  text : String
  roomName : String
  timestamp : String
  isSystem : Bool
  sender : String
deriving Repr, DecidableEq

/-- The `UserMessage` constructor of src/unnamed/part_000 (lines 23-27). -/
def UserMessage.construct (gen : Nat) (now : String)
    (text roomName sender : String) : UserMessage × Nat :=
  let base := Message.construct gen now text roomName
  ({ id := base.1.id, text := base.1.text, roomName := base.1.roomName,
     timestamp := base.1.timestamp, isSystem := false, sender := sender },
   base.2)

/-- `UserMessage.toJson` of src/unnamed/part_000 (lines 29-38): again a pure
function of the stored fields, carrying the construction-time id. -/
def UserMessage.toJson (m : UserMessage) : List (String × JVal) :=
  [("messageId", JVal.str m.id), ("messageTime", JVal.str m.timestamp),
   ("messageRoomName", JVal.str m.roomName), ("messageText", JVal.str m.text),
   ("messageSender", JVal.str m.sender), ("messageSystem", JVal.bool m.isSystem)]

end Part000

namespace MessageJs

/-- The `Message` class at the top of src/Message.js (lines 1-18): its
constructor assigns text, room name, timestamp and `isSystem = true` — and
no identifier at all. -/
structure Message where
  text : String
  roomName : String
  timestamp : String
  isSystem : Bool
deriving Repr, DecidableEq

/-- The `Message` constructor of src/Message.js (lines 2-7): no id field is
assigned and no random draw happens. -/
def Message.construct (now : String) (text roomName : String) : Message :=
  { text := text, roomName := roomName, timestamp := now, isSystem := true }

/-- `Message.toJson` of src/Message.js (lines 9-16): the serialization has
no `messageId` field (and names the flag `messageIsSystem`). -/
def Message.toJson (m : Message) : List (String × JVal) :=
  [("messageText", JVal.str m.text), ("messageRoomName", JVal.str m.roomName),
   ("messageTime", JVal.str m.timestamp), ("messageIsSystem", JVal.bool m.isSystem)]

/-- The `UserMessage` subclass of src/Message.js (lines 20-37): inherits the
id-less base constructor, overwrites `isSystem` to `false`, stores the
sender. -/
structure UserMessage where
  text : String
  roomName : String
  timestamp : String
  isSystem : Bool
  sender : String
deriving Repr, DecidableEq

/-- The `UserMessage` constructor of src/Message.js (lines 21-25). -/
def UserMessage.construct (now : String) (text roomName sender : String) :
    UserMessage :=
  { text := text, roomName := roomName, timestamp := now, isSystem := false,
    sender := sender }

/-- `UserMessage.toJson` of src/Message.js (lines 27-36): it serializes
`messageId: this.id`, but no constructor in that file ever assigns
`this.id`, so the field reads back `undefined`. -/
def UserMessage.toJson (m : UserMessage) : List (String × JVal) :=
  [("messageId", JVal.undef), ("messageTime", JVal.str m.timestamp),
   ("messageRoomName", JVal.str m.roomName), ("messageText", JVal.str m.text),
   ("messageSender", JVal.str m.sender), ("messageIsSystem", JVal.bool m.isSystem)]

end MessageJs

/-- The structural invariant every reachable handler state satisfies: the
map's keys are pairwise distinct, every stored value is a defined array,
every key names a room present in the directory, and no member array holds
the same session id twice. -/
structure GoodState (s : HState) : Prop where
  keysNodup : (s.chatUsers.map Prod.fst).Nodup
  allSome : ∀ p ∈ s.chatUsers, p.2.isSome = true
  keysSubRooms : ∀ p ∈ s.chatUsers, p.1 ∈ s.rooms
  perRoomNodup : ∀ r, ((members s r).map (fun u => u.userId)).Nodup

/-- The per-user action of the disconnect sweep on one stored member array:
erase the found occurrence of the session (the source writes the
`length == 1` case as an explicit reset to `[]`), or leave the array
untouched when the session is absent. -/
def procUsers (sid : String) (users : List UserEntry) : List UserEntry :=
  match findUserIndex sid users with
  | some i => if users.length == 1 then [] else users.eraseIdx i
  | none => users

/-- The action of the disconnect sweep on one map entry: the key is kept and
the value processed by `procUsers` (a stored `undefined` stays). -/
def procEntry (sid : String) (p : String × Option (List UserEntry)) :
    String × Option (List UserEntry) :=
  (p.1, p.2.map (procUsers sid))

/-- Claim C1's property at state `s`, room `r`, requester `sock`: in each of
the four membership-changing handlers, whenever the membership map changed,
the last emission of the operation is a `room_users_list` whose `chatUsers`
payload is the post-mutation membership; every roster a disconnect emits
carries the post-sweep membership of its room. -/
def RosterLastSpec (s : HState) (r : String) (sock : Sock) : Prop :=
  ((addRoom s r sock).1.chatUsers ≠ s.chatUsers →
     (addRoom s r sock).2.getLast? =
       some (Emit.toRequester
         (OutMsg.roomUsersList (mget (addRoom s r sock).1.chatUsers r) r)))
  ∧ ((joinRoom s r sock).1.chatUsers ≠ s.chatUsers →
     (joinRoom s r sock).2.getLast? =
       some (Emit.toRoomAll r
         (OutMsg.roomUsersList (mget (joinRoom s r sock).1.chatUsers r) r)))
  ∧ (∀ s2 tr, leaveRoom s r sock = Except.ok (s2, tr) →
       s2.chatUsers ≠ s.chatUsers →
       tr.getLast? =
         some (Emit.toRoomAll r
           (OutMsg.roomUsersList (mget s2.chatUsers r) r)))
  ∧ ((disconnectUser s sock).2 ≠ [] →
       ∃ r2 cu, (disconnectUser s sock).2.getLast? =
         some (Emit.toRoomAll r2 (OutMsg.roomUsersList cu r2)))
  ∧ (∀ r2 cu,
       Emit.toRoomAll r2 (OutMsg.roomUsersList cu r2) ∈ (disconnectUser s sock).2 →
       cu = mget (disconnectUser s sock).1.chatUsers r2)

/-- Claim C3's property at state `s` for a disconnecting `sock`: the sweep
removes the session from every room, emits the disconnect system message and
the post-sweep roster for every room the session belonged to, and processes
every entry of the map — two emissions per entry, so it never stops early
and skips no broadcast. -/
def DisconnectSweepSpec (s : HState) (sock : Sock) : Prop :=
  (∀ r, sock.id ∉
      ((mget (disconnectUser s sock).1.chatUsers r).getD []).map
        (fun u => u.userId))
  ∧ (∀ r, sock.id ∈ (members s r).map (fun u => u.userId) →
      (∃ mid, Emit.toRoomAll r
          (OutMsg.userLeftChat mid
            ("User " ++ sock.clientName ++ " has disconnected") r true)
          ∈ (disconnectUser s sock).2)
      ∧ (∃ cu, Emit.toRoomAll r (OutMsg.roomUsersList cu r)
            ∈ (disconnectUser s sock).2
          ∧ cu = mget (disconnectUser s sock).1.chatUsers r))
  ∧ (disconnectUser s sock).2.length = 2 * s.chatUsers.length

/-- The amended claim C4 at state `s`, disconnecting `sock`: the disconnect
system message and a roster go to every room present in the membership map
(not only rooms the session belonged to), and no other room is targeted. -/
def DisconnectBroadcastSpec (s : HState) (sock : Sock) : Prop :=
  (∀ r, r ∈ s.chatUsers.map Prod.fst →
    (∃ mid, Emit.toRoomAll r
        (OutMsg.userLeftChat mid
          ("User " ++ sock.clientName ++ " has disconnected") r true)
        ∈ (disconnectUser s sock).2)
    ∧ (∃ cu, Emit.toRoomAll r (OutMsg.roomUsersList cu r)
          ∈ (disconnectUser s sock).2))
  ∧ (∀ r m, Emit.toRoomAll r m ∈ (disconnectUser s sock).2 →
      r ∈ s.chatUsers.map Prod.fst)

/-- Claim C9's property at state `s`: every stored value of the membership
map is a defined array, and consequently a disconnect sweep from `s`
processes every entry (two emissions each) — the early-abort branch of
`disconnectUser` never fires. -/
def StoredValuesDefined (s : HState) : Prop :=
  (∀ p ∈ s.chatUsers, p.2.isSome = true)
  ∧ (∀ sock, (disconnectUser s sock).2.length = 2 * s.chatUsers.length)

/-- A session used in the concrete witness scenarios. -/
def sockA : Sock := { id := "u1", clientName := "A" }

/-- A second session used in the concrete witness scenarios. -/
def sockB : Sock := { id := "u2", clientName := "B" }

/-- The state after session B creates room `a` in a fresh handler: the room
directory holds `a` and its member array holds exactly B's entry. -/
def s1 : HState := (addRoom initState "a" sockB).1

/-! ## Association-list lemmas for the `_chatUsers` map -/

theorem mget_mset_self (m : List (String × Option (List UserEntry)))
    (k : String) (v : Option (List UserEntry)) : mget (mset m k v) k = v := by
  induction m with
  | nil => simp [mget, mset]
  | cons p rest ih =>
      by_cases h : p.1 = k
      · simp [mget, mset, h]
      · simp [mget, mset, h, ih]

theorem mget_mset_ne (m : List (String × Option (List UserEntry)))
    (k r : String) (v : Option (List UserEntry)) (h : k ≠ r) :
    mget (mset m k v) r = mget m r := by
  induction m with
  | nil => simp [mget, mset, h]
  | cons p rest ih =>
      by_cases hp : p.1 = k
      · simp [mget, mset, hp, h]
      · simp [mget, mset, hp, ih]

theorem keys_mset_of_mem (m : List (String × Option (List UserEntry)))
    (k : String) (v : Option (List UserEntry)) (h : k ∈ m.map Prod.fst) :
    (mset m k v).map Prod.fst = m.map Prod.fst := by
  induction m with
  | nil => simp at h
  | cons p rest ih =>
      by_cases hp : p.1 = k
      · simp [mset, hp]
      · simp only [List.map_cons, List.mem_cons] at h
        rcases h with h | h
        · exact absurd h.symm hp
        · simp [mset, hp, ih h]

theorem mset_of_not_mem_keys (m : List (String × Option (List UserEntry)))
    (k : String) (v : Option (List UserEntry)) (h : k ∉ m.map Prod.fst) :
    mset m k v = m ++ [(k, v)] := by
  induction m with
  | nil => simp [mset]
  | cons p rest ih =>
      simp only [List.map_cons, List.mem_cons, not_or] at h
      simp [mset, Ne.symm h.1, ih h.2]

theorem mset_middle (pre rest : List (String × Option (List UserEntry)))
    (k : String) (w v : Option (List UserEntry))
    (h : k ∉ pre.map Prod.fst) :
    mset (pre ++ (k, w) :: rest) k v = pre ++ (k, v) :: rest := by
  induction pre with
  | nil => simp [mset]
  | cons p pre2 ih =>
      simp only [List.map_cons, List.mem_cons, not_or] at h
      simp [mset, Ne.symm h.1, ih h.2]

theorem mem_mset (m : List (String × Option (List UserEntry)))
    (k : String) (v : Option (List UserEntry)) (p : String × Option (List UserEntry))
    (h : p ∈ mset m k v) : p = (k, v) ∨ p ∈ m := by
  induction m with
  | nil =>
      simp only [mset, List.mem_singleton] at h
      exact Or.inl h
  | cons q rest ih =>
      by_cases hq : q.1 = k
      · have hq2 : (q.1 == k) = true := beq_iff_eq.mpr hq
        simp only [mset, hq2, if_true, List.mem_cons] at h
        rcases h with h | h
        · exact Or.inl h
        · exact Or.inr (List.mem_cons_of_mem _ h)
      · have hq2 : (q.1 == k) = false := beq_eq_false_iff_ne.mpr hq
        simp only [mset, hq2, Bool.false_eq_true, if_false, List.mem_cons] at h
        rcases h with h | h
        · exact Or.inr (h ▸ List.mem_cons_self _ _)
        · rcases ih h with h2 | h2
          · exact Or.inl h2
          · exact Or.inr (List.mem_cons_of_mem _ h2)

theorem mget_eq_none_of_not_mem_keys
    (m : List (String × Option (List UserEntry))) (k : String)
    (h : k ∉ m.map Prod.fst) : mget m k = none := by
  induction m with
  | nil => simp [mget]
  | cons p rest ih =>
      simp only [List.map_cons, List.mem_cons, not_or] at h
      simp [mget, Ne.symm h.1, ih h.2]

theorem not_mem_keys_of_mget_none
    (m : List (String × Option (List UserEntry))) (k : String)
    (hs : ∀ p ∈ m, p.2.isSome = true) (h : mget m k = none) :
    k ∉ m.map Prod.fst := by
  induction m with
  | nil => simp
  | cons p rest ih =>
      by_cases hp : p.1 = k
      · exfalso
        have h2 : p.2 = none := by simpa [mget, hp] using h
        have := hs p (List.mem_cons_self p rest)
        rw [h2] at this
        simp at this
      · have h2 : mget rest k = none := by simpa [mget, hp] using h
        have h3 := ih (fun q hq => hs q (List.mem_cons_of_mem _ hq)) h2
        simp only [List.map_cons, List.mem_cons, not_or]
        exact ⟨fun hc => hp hc.symm, h3⟩

theorem mem_of_mget_some (m : List (String × Option (List UserEntry)))
    (k : String) (v : List UserEntry) (h : mget m k = some v) :
    (k, some v) ∈ m := by
  induction m with
  | nil => simp [mget] at h
  | cons p rest ih =>
      by_cases hp : p.1 = k
      · have h2 : p.2 = some v := by simpa [mget, hp] using h
        have : p = (k, some v) := by
          cases p
          simp_all
        simp [this]
      · have h2 : mget rest k = some v := by simpa [mget, hp] using h
        exact List.mem_cons_of_mem _ (ih h2)

/-! ## Lemmas about `findUserIndex` and erasure -/

theorem findUserIndex_eq_none_iff (sid : String) (l : List UserEntry) :
    findUserIndex sid l = none ↔ sid ∉ l.map (fun u => u.userId) := by
  induction l with
  | nil => simp [findUserIndex]
  | cons u rest ih =>
      by_cases h : u.userId = sid
      · simp [findUserIndex, h]
      · simp [findUserIndex, h, ih, Ne.symm h]

theorem not_mem_eraseIdx_of_findUserIndex (sid : String) (l : List UserEntry)
    (i : Nat) (hn : (l.map (fun u => u.userId)).Nodup)
    (h : findUserIndex sid l = some i) :
    sid ∉ (l.eraseIdx i).map (fun u => u.userId) := by
  induction l generalizing i with
  | nil => simp [findUserIndex] at h
  | cons u rest ih =>
      simp only [List.map_cons, List.nodup_cons] at hn
      by_cases hu : u.userId = sid
      · have hi : 0 = i := by simpa [findUserIndex, hu] using h
        subst hi
        simpa [List.eraseIdx, hu] using hn.1
      · simp only [findUserIndex, hu, beq_iff_eq, if_false, Option.map_eq_some'] at h
        rcases h with ⟨j, hj, hij⟩
        subst hij
        simp only [List.eraseIdx, List.map_cons, List.mem_cons, not_or]
        exact ⟨Ne.symm hu, ih j hn.2 hj⟩

theorem procUsers_nodup (sid : String) (l : List UserEntry)
    (hn : (l.map (fun u => u.userId)).Nodup) :
    ((procUsers sid l).map (fun u => u.userId)).Nodup := by
  unfold procUsers
  match hfi : findUserIndex sid l with
  | none => exact hn
  | some i =>
      by_cases hl : l.length == 1
      · simp [hl]
      · simp only [hl, if_false]
        exact hn.sublist ((List.eraseIdx_sublist l i).map _)

theorem procUsers_not_mem (sid : String) (l : List UserEntry)
    (hn : (l.map (fun u => u.userId)).Nodup) :
    sid ∉ (procUsers sid l).map (fun u => u.userId) := by
  unfold procUsers
  match hfi : findUserIndex sid l with
  | none => exact (findUserIndex_eq_none_iff sid l).mp hfi
  | some i =>
      by_cases hl : l.length == 1
      · simp [hl]
      · simp only [hl, if_false]
        exact not_mem_eraseIdx_of_findUserIndex sid l i hn hfi

/-! ## Structure of the disconnect sweep -/

theorem keys_map_procEntry (sid : String)
    (l : List (String × Option (List UserEntry))) :
    (l.map (procEntry sid)).map Prod.fst = l.map Prod.fst := by
  induction l with
  | nil => rfl
  | cons p rest ih => simp [procEntry, ih]

theorem mget_map_procEntry (sid : String)
    (l : List (String × Option (List UserEntry))) (r : String) :
    mget (l.map (procEntry sid)) r = (mget l r).map (procUsers sid) := by
  induction l with
  | nil => simp [mget]
  | cons p rest ih =>
      by_cases hp : p.1 = r
      · simp [mget, procEntry, hp]
      · simp [mget, procEntry, hp, ih]

theorem rooms_disconnectLoop (sock : Sock)
    (entries : List (String × Option (List UserEntry))) (s : HState) :
    (disconnectLoop sock entries s).1.rooms = s.rooms := by
  induction entries generalizing s with
  | nil => rfl
  | cons p rest ih =>
      match p with
      | (r, none) => rfl
      | (r, some users) =>
          cases hfi : findUserIndex sock.id users <;>
            simp [disconnectLoop, hfi, ih]

theorem length_disconnectLoop (sock : Sock)
    (entries : List (String × Option (List UserEntry))) (s : HState)
    (hs : ∀ p ∈ entries, p.2.isSome = true) :
    (disconnectLoop sock entries s).2.length = 2 * entries.length := by
  induction entries generalizing s with
  | nil => rfl
  | cons p rest ih =>
      match p with
      | (r, none) =>
          have := hs (r, none) (List.mem_cons_self _ _)
          simp at this
      | (r, some users) =>
          have hrest : ∀ p ∈ rest, p.2.isSome = true :=
            fun q hq => hs q (List.mem_cons_of_mem _ hq)
          cases hfi : findUserIndex sock.id users <;>
            (simp [disconnectLoop, hfi, ih _ hrest]; omega)

theorem cons_cons_roster_shape (a : Emit) (r : String)
    (cu : Option (List UserEntry)) (tr : List Emit)
    (h : tr = [] ∨ ∃ pre r2 cu2,
      tr = pre ++ [Emit.toRoomAll r2 (OutMsg.roomUsersList cu2 r2)]) :
    ∃ pre r2 cu2, a :: Emit.toRoomAll r (OutMsg.roomUsersList cu r) :: tr
      = pre ++ [Emit.toRoomAll r2 (OutMsg.roomUsersList cu2 r2)] := by
  rcases h with h | ⟨pre, r2, cu2, h⟩
  · exact ⟨[a], r, cu, by simp [h]⟩
  · exact ⟨a :: Emit.toRoomAll r (OutMsg.roomUsersList cu r) :: pre, r2, cu2,
      by simp [h]⟩

theorem trace_disconnectLoop (sock : Sock)
    (entries : List (String × Option (List UserEntry))) (s : HState) :
    (disconnectLoop sock entries s).2 = [] ∨
    ∃ pre r cu, (disconnectLoop sock entries s).2 =
      pre ++ [Emit.toRoomAll r (OutMsg.roomUsersList cu r)] := by
  induction entries generalizing s with
  | nil => exact Or.inl rfl
  | cons p rest ih =>
      match p with
      | (r, none) => exact Or.inl rfl
      | (r, some users) =>
          cases hfi : findUserIndex sock.id users <;>
            · simp only [disconnectLoop, hfi, List.cons_append, List.nil_append]
              exact Or.inr (cons_cons_roster_shape _ _ _ _ (ih _))

theorem mget_disconnectLoop_not_mem (sock : Sock)
    (entries : List (String × Option (List UserEntry))) (s : HState)
    (r : String) (h : r ∉ entries.map Prod.fst) :
    mget (disconnectLoop sock entries s).1.chatUsers r = mget s.chatUsers r := by
  induction entries generalizing s with
  | nil => rfl
  | cons p rest ih =>
      match p with
      | (k, none) => rfl
      | (k, some users) =>
          simp only [List.map_cons, List.mem_cons, not_or] at h
          cases hfi : findUserIndex sock.id users
          · simp only [disconnectLoop, hfi]
            exact ih _ h.2
          · simp only [disconnectLoop, hfi]
            rw [ih _ h.2]
            exact mget_mset_ne _ _ _ _ (fun hc => h.1 hc.symm)

theorem emitRoom_disconnectLoop (sock : Sock)
    (entries : List (String × Option (List UserEntry))) (s : HState)
    (r : String) (m : OutMsg)
    (h : Emit.toRoomAll r m ∈ (disconnectLoop sock entries s).2) :
    r ∈ entries.map Prod.fst := by
  induction entries generalizing s with
  | nil => simp [disconnectLoop] at h
  | cons p rest ih =>
      match p with
      | (k, none) => simp [disconnectLoop] at h
      | (k, some users) =>
          cases hfi : findUserIndex sock.id users <;>
          · simp only [disconnectLoop, hfi, List.cons_append, List.nil_append,
              List.mem_cons] at h
            rcases h with h | h | h
            · simp only [Emit.toRoomAll.injEq] at h
              simp [h.1]
            · simp only [Emit.toRoomAll.injEq] at h
              simp [h.1]
            · simp [ih _ h]

theorem roster_payload_disconnectLoop (sock : Sock)
    (entries : List (String × Option (List UserEntry))) (s : HState)
    (hk : (entries.map Prod.fst).Nodup) (r : String)
    (cu : Option (List UserEntry))
    (h : Emit.toRoomAll r (OutMsg.roomUsersList cu r)
      ∈ (disconnectLoop sock entries s).2) :
    cu = mget (disconnectLoop sock entries s).1.chatUsers r := by
  induction entries generalizing s with
  | nil => simp [disconnectLoop] at h
  | cons p rest ih =>
      match p with
      | (k, none) => simp [disconnectLoop] at h
      | (k, some users) =>
          simp only [List.map_cons, List.nodup_cons] at hk
          cases hfi : findUserIndex sock.id users <;>
          · simp only [disconnectLoop, hfi, List.cons_append, List.nil_append,
              List.mem_cons] at h ⊢
            rcases h with h | h | h
            · exact absurd h (by simp)
            · simp only [Emit.toRoomAll.injEq, OutMsg.roomUsersList.injEq] at h
              rcases h with ⟨hrk, hcu, -⟩
              subst hrk
              rw [mget_disconnectLoop_not_mem _ _ _ _ hk.1]
              exact hcu
            · exact ih _ hk.2 h

theorem emits_disconnectLoop (sock : Sock)
    (entries : List (String × Option (List UserEntry))) (s : HState)
    (hs : ∀ p ∈ entries, p.2.isSome = true) (r : String)
    (v : Option (List UserEntry)) (hmem : (r, v) ∈ entries) :
    (∃ mid, Emit.toRoomAll r (OutMsg.userLeftChat mid
        ("User " ++ sock.clientName ++ " has disconnected") r true)
      ∈ (disconnectLoop sock entries s).2)
    ∧ (∃ cu, Emit.toRoomAll r (OutMsg.roomUsersList cu r)
      ∈ (disconnectLoop sock entries s).2) := by
  induction entries generalizing s with
  | nil => simp at hmem
  | cons p rest ih =>
      match p with
      | (k, none) =>
          have := hs (k, none) (List.mem_cons_self _ _)
          simp at this
      | (k, some users) =>
          have hrest : ∀ p ∈ rest, p.2.isSome = true :=
            fun q hq => hs q (List.mem_cons_of_mem _ hq)
          rcases List.mem_cons.mp hmem with hhead | htail
          · have hrk : r = k := congrArg Prod.fst hhead
            subst hrk
            cases hfi : findUserIndex sock.id users <;>
            · simp only [disconnectLoop, hfi, List.cons_append, List.nil_append,
                List.mem_cons]
              exact ⟨⟨_, Or.inl rfl⟩, ⟨_, Or.inr (Or.inl rfl)⟩⟩
          · cases hfi : findUserIndex sock.id users <;>
            · simp only [disconnectLoop, hfi, List.cons_append, List.nil_append,
                List.mem_cons]
              rcases ih _ hrest htail with ⟨⟨mid, h1⟩, ⟨cu, h2⟩⟩
              exact ⟨⟨mid, Or.inr (Or.inr h1)⟩, ⟨cu, Or.inr (Or.inr h2)⟩⟩

theorem not_mem_pre_of_nodup_keys
    (pre rest : List (String × Option (List UserEntry))) (k : String)
    (w : Option (List UserEntry))
    (hk : ((pre ++ (k, w) :: rest).map Prod.fst).Nodup) :
    k ∉ pre.map Prod.fst := by
  intro hc
  rw [List.map_append] at hk
  rcases List.nodup_append.mp hk with ⟨-, -, hdisj⟩
  exact hdisj hc (by simp)

theorem chatUsers_disconnectLoop (sock : Sock)
    (entries pre : List (String × Option (List UserEntry))) (s : HState)
    (hsplit : s.chatUsers = pre ++ entries)
    (hk : ((pre ++ entries).map Prod.fst).Nodup)
    (hs : ∀ p ∈ entries, p.2.isSome = true) :
    (disconnectLoop sock entries s).1.chatUsers =
      pre ++ entries.map (procEntry sock.id) := by
  induction entries generalizing pre s with
  | nil => simpa [disconnectLoop] using hsplit
  | cons p rest ih =>
      match p with
      | (k, none) =>
          have := hs (k, none) (List.mem_cons_self _ _)
          simp at this
      | (k, some users) =>
          have hknotpre : k ∉ pre.map Prod.fst :=
            not_mem_pre_of_nodup_keys pre rest k (some users) hk
          have hrest : ∀ p ∈ rest, p.2.isSome = true :=
            fun q hq => hs q (List.mem_cons_of_mem _ hq)
          have hk2 : (((pre ++ [(k, some users)]) ++ rest).map Prod.fst).Nodup := by
            simpa [List.append_assoc] using hk
          cases hfi : findUserIndex sock.id users
          · simp only [disconnectLoop, hfi]
            have hsplit2 : ({ s with nextId := s.nextId + 1 } : HState).chatUsers
                = (pre ++ [(k, some users)]) ++ rest := by
              simp [hsplit, List.append_assoc]
            rw [ih (pre ++ [(k, some users)]) _ hsplit2 hk2 hrest]
            simp [procEntry, procUsers, hfi, List.append_assoc]
          case some i =>
            simp only [disconnectLoop, hfi]
            have hset : mset s.chatUsers k
                (some (if users.length == 1 then [] else users.eraseIdx i))
                = (pre ++ [(k, some (if users.length == 1 then [] else users.eraseIdx i))]) ++ rest := by
              rw [hsplit, mset_middle pre rest k (some users) _ hknotpre]
              simp [List.append_assoc]
            have hk3 : (((pre ++ [(k, some (if users.length == 1 then [] else users.eraseIdx i))]) ++ rest).map Prod.fst).Nodup := by
              simpa [List.append_assoc] using hk
            rw [ih (pre ++ [(k, some (if users.length == 1 then [] else users.eraseIdx i))]) _ (by simpa using hset) hk3 hrest]
            simp [procEntry, procUsers, hfi, List.append_assoc]

/-! ## Preservation of the structural invariant -/

theorem mem_keys_of_mget_some (m : List (String × Option (List UserEntry)))
    (k : String) (v : List UserEntry) (h : mget m k = some v) :
    k ∈ m.map Prod.fst :=
  List.mem_map_of_mem Prod.fst (mem_of_mget_some m k v h)

theorem rooms_addUser (s : HState) (r : String) (sock : Sock) :
    (addUserToServerStorage s r sock).rooms = s.rooms := by
  unfold addUserToServerStorage
  cases mget s.chatUsers r <;> rfl

theorem nextId_addUser (s : HState) (r : String) (sock : Sock) :
    (addUserToServerStorage s r sock).nextId = s.nextId := by
  unfold addUserToServerStorage
  cases mget s.chatUsers r <;> rfl

theorem goodState_ext (s t : HState) (hr : t.rooms = s.rooms)
    (hc : t.chatUsers = s.chatUsers) (hg : GoodState s) : GoodState t := by
  refine ⟨?_, ?_, ?_, ?_⟩
  · rw [hc]
    exact hg.keysNodup
  · intro p hp
    rw [hc] at hp
    exact hg.allSome p hp
  · intro p hp
    rw [hc] at hp
    rw [hr]
    exact hg.keysSubRooms p hp
  · intro r2
    simp only [members]
    rw [hc]
    exact hg.perRoomNodup r2

theorem good_addUser (s : HState) (r : String) (sock : Sock)
    (hg : GoodState s) (hroom : r ∈ s.rooms)
    (hnot : sock.id ∉ (members s r).map (fun u => u.userId)) :
    GoodState (addUserToServerStorage s r sock) := by
  unfold addUserToServerStorage
  cases hm : mget s.chatUsers r with
  | none =>
      have hnk : r ∉ s.chatUsers.map Prod.fst :=
        not_mem_keys_of_mget_none s.chatUsers r hg.allSome hm
      have happ := mset_of_not_mem_keys s.chatUsers r
        (some [{ userName := sock.clientName, userId := sock.id }]) hnk
      refine ⟨?_, ?_, ?_, ?_⟩
      · rw [happ, List.map_append]
        rw [List.nodup_append]
        exact ⟨hg.keysNodup, List.nodup_singleton _, by
          intro a ha hb
          simp only [List.map_cons, List.map_nil, List.mem_singleton] at hb
          exact hnk (hb ▸ ha)⟩
      · intro p hp
        rw [happ] at hp
        rcases List.mem_append.mp hp with hp | hp
        · exact hg.allSome p hp
        · simp only [List.mem_singleton] at hp
          simp [hp]
      · intro p hp
        rw [happ] at hp
        rcases List.mem_append.mp hp with hp | hp
        · exact hg.keysSubRooms p hp
        · simp only [List.mem_singleton] at hp
          simpa [hp] using hroom
      · intro r2
        by_cases hr : r = r2
        · subst hr
          have : mget (mset s.chatUsers r
              (some [{ userName := sock.clientName, userId := sock.id }])) r =
              some [{ userName := sock.clientName, userId := sock.id }] :=
            mget_mset_self _ _ _
          simp only [members]
          rw [this]
          simp
        · have : mget (mset s.chatUsers r
              (some [{ userName := sock.clientName, userId := sock.id }])) r2 =
              mget s.chatUsers r2 := mget_mset_ne _ _ _ _ hr
          simp only [members]
          rw [this]
          exact hg.perRoomNodup r2
  | some users =>
      have husers : members s r = users := by simp [members, hm]
      have hk : r ∈ s.chatUsers.map Prod.fst := mem_keys_of_mget_some _ _ _ hm
      refine ⟨?_, ?_, ?_, ?_⟩
      · rw [keys_mset_of_mem _ _ _ hk]
        exact hg.keysNodup
      · intro p hp
        rcases mem_mset _ _ _ _ hp with hp | hp
        · simp [hp]
        · exact hg.allSome p hp
      · intro p hp
        rcases mem_mset _ _ _ _ hp with hp | hp
        · have : p.1 = r := by simp [hp]
          rw [this]
          exact hg.keysSubRooms (r, some users) (mem_of_mget_some _ _ _ hm)
        · exact hg.keysSubRooms p hp
      · intro r2
        by_cases hr : r = r2
        · subst hr
          simp only [members]
          rw [mget_mset_self]
          simp only [Option.getD_some, List.map_append]
          rw [List.nodup_append]
          refine ⟨by rw [← husers]; exact hg.perRoomNodup r, by simp, ?_⟩
          intro a ha hb
          simp only [List.map_cons, List.map_nil, List.mem_singleton] at hb
          rw [← husers] at ha
          exact hnot (hb ▸ ha)
        · simp only [members]
          rw [mget_mset_ne _ _ _ _ hr]
          exact hg.perRoomNodup r2

theorem good_addRoom (s : HState) (r : String) (sock : Sock)
    (hg : GoodState s) : GoodState (addRoom s r sock).1 := by
  unfold addRoom
  split
  next hc => exact hg
  next hc =>
    have hrnot : r ∉ s.rooms := by simp_all
    have hg1 : GoodState { s with rooms := s.rooms ++ [r] } := by
      refine ⟨hg.keysNodup, hg.allSome, ?_, hg.perRoomNodup⟩
      intro p hp
      exact List.mem_append_left _ (hg.keysSubRooms p hp)
    have hnk : r ∉ s.chatUsers.map Prod.fst :=
      fun hc2 => by
        rcases List.mem_map.mp hc2 with ⟨p, hp, hp2⟩
        exact hrnot (hp2 ▸ hg.keysSubRooms p hp)
    have hmem : members { s with rooms := s.rooms ++ [r] } r = [] := by
      simp [members, mget_eq_none_of_not_mem_keys _ _ hnk]
    exact good_addUser _ r sock hg1 (List.mem_append_right _ (by simp))
      (by rw [hmem]; simp)

theorem good_joinRoom (s : HState) (r : String) (sock : Sock)
    (hg : GoodState s) : GoodState (joinRoom s r sock).1 := by
  rcases hm : mget s.chatUsers r with - | users
  · simp only [joinRoom, userAlreadyInRoom, hm]
    split
    next hc =>
      have hroom : r ∈ s.rooms := by simp_all
      have hnotm : sock.id ∉ (members s r).map (fun u => u.userId) := by
        simp [members, hm]
      exact goodState_ext (addUserToServerStorage s r sock) _ rfl rfl
        (good_addUser s r sock hg hroom hnotm)
    next hc => exact hg
  · rcases hfi : findUserIndex sock.id users with - | i
    · simp only [joinRoom, userAlreadyInRoom, hm, hfi]
      split
      next hc =>
        have hroom : r ∈ s.rooms := by simp_all
        have hnotm : sock.id ∉ (members s r).map (fun u => u.userId) := by
          have h2 := (findUserIndex_eq_none_iff sock.id users).mp hfi
          simpa [members, hm] using h2
        exact goodState_ext (addUserToServerStorage s r sock) _ rfl rfl
          (good_addUser s r sock hg hroom hnotm)
      next hc => exact hg
    · simp only [joinRoom, userAlreadyInRoom, hm, hfi]
      exact hg

theorem good_leaveRoom (s : HState) (r : String) (sock : Sock)
    (hg : GoodState s) (s2 : HState) (tr : List Emit)
    (h : leaveRoom s r sock = Except.ok (s2, tr)) : GoodState s2 := by
  rcases hm : mget s.chatUsers r with - | users
  · simp [leaveRoom, removeUserFromServerStorage, hm] at h
  · rcases hfi : findUserIndex sock.id users with - | i
    · simp only [leaveRoom, removeUserFromServerStorage, hm, hfi,
        Except.ok.injEq, Prod.mk.injEq] at h
      rw [← h.1]
      exact goodState_ext s _ rfl rfl hg
    · simp only [leaveRoom, removeUserFromServerStorage, hm, hfi,
        Except.ok.injEq, Prod.mk.injEq] at h
      rw [← h.1]
      refine goodState_ext
        { s with chatUsers := (mset s.chatUsers r (some (users.eraseIdx i))) }
        _ rfl rfl ?_
      have hk : r ∈ s.chatUsers.map Prod.fst := mem_keys_of_mget_some _ _ _ hm
      refine ⟨?_, ?_, ?_, ?_⟩
      · rw [keys_mset_of_mem _ _ _ hk]
        exact hg.keysNodup
      · intro p hp
        rcases mem_mset _ _ _ _ hp with hp | hp
        · simp [hp]
        · exact hg.allSome p hp
      · intro p hp
        rcases mem_mset _ _ _ _ hp with hp | hp
        · have : p.1 = r := by simp [hp]
          rw [this]
          exact hg.keysSubRooms (r, some users) (mem_of_mget_some _ _ _ hm)
        · exact hg.keysSubRooms p hp
      · intro r2
        by_cases hr : r = r2
        · subst hr
          simp only [members]
          rw [mget_mset_self]
          have husers : (users.map (fun u => u.userId)).Nodup := by
            have := hg.perRoomNodup r
            simpa [members, hm] using this
          exact husers.sublist ((List.eraseIdx_sublist users i).map _)
        · simp only [members]
          rw [mget_mset_ne _ _ _ _ hr]
          exact hg.perRoomNodup r2

theorem good_disconnect (s : HState) (sock : Sock)
    (hg : GoodState s) : GoodState (disconnectUser s sock).1 := by
  have hfin : (disconnectUser s sock).1.chatUsers =
      s.chatUsers.map (procEntry sock.id) := by
    simpa using chatUsers_disconnectLoop sock s.chatUsers [] s rfl
      (by simpa using hg.keysNodup) hg.allSome
  have hrooms : (disconnectUser s sock).1.rooms = s.rooms :=
    rooms_disconnectLoop sock s.chatUsers s
  refine ⟨?_, ?_, ?_, ?_⟩
  · rw [hfin, keys_map_procEntry]
    exact hg.keysNodup
  · intro p hp
    rw [hfin] at hp
    rcases List.mem_map.mp hp with ⟨q, hq, hq2⟩
    have := hg.allSome q hq
    subst hq2
    cases hqv : q.2 with
    | none => rw [hqv] at this; simp at this
    | some us => simp [procEntry, hqv]
  · intro p hp
    rw [hfin] at hp
    rcases List.mem_map.mp hp with ⟨q, hq, hq2⟩
    subst hq2
    rw [hrooms]
    exact hg.keysSubRooms q hq
  · intro r
    simp only [members]
    rw [hfin, mget_map_procEntry]
    cases hm : mget s.chatUsers r with
    | none => simp
    | some us =>
        simp only [Option.map_some', Option.getD_some]
        have := hg.perRoomNodup r
        rw [members, hm] at this
        exact procUsers_nodup sock.id us (by simpa using this)

theorem good_step (s : HState) (e : InEvent) (hg : GoodState s) :
    GoodState (stepState s e) := by
  cases e with
  | addRoom r sock => exact good_addRoom s r sock hg
  | joinRoom r sock => exact good_joinRoom s r sock hg
  | leaveRoom r sock =>
      rcases h : leaveRoom s r sock with e2 | p
      · simp only [stepState, stepE, h]
        exact hg
      · simp only [stepState, stepE, h]
        exact good_leaveRoom s r sock hg p.1 p.2 (by rw [h])
  | newMessage args sock => exact hg
  | disconnect sock => exact good_disconnect s sock hg

theorem reachable_good (s : HState) (h : Reachable s) : GoodState s := by
  induction h with
  | init =>
      refine ⟨by simp [initState], by simp [initState], by simp [initState], ?_⟩
      intro r
      simp [initState, members, mget]
  | step s2 e _ ih => exact good_step s2 e ih

theorem reachable_s1 : Reachable s1 :=
  Reachable.step initState (InEvent.addRoom "a" sockB) Reachable.init

/-! ## Room-directory preservation across events -/

theorem rooms_disconnectUser (s : HState) (sock : Sock) :
    (disconnectUser s sock).1.rooms = s.rooms :=
  rooms_disconnectLoop sock s.chatUsers s

theorem chatUsers_disconnectUser (s : HState) (sock : Sock)
    (hg : GoodState s) :
    (disconnectUser s sock).1.chatUsers = s.chatUsers.map (procEntry sock.id) := by
  simpa using chatUsers_disconnectLoop sock s.chatUsers [] s rfl
    (by simpa using hg.keysNodup) hg.allSome

theorem rooms_joinRoom (s : HState) (r : String) (sock : Sock) :
    (joinRoom s r sock).1.rooms = s.rooms := by
  rcases hm : mget s.chatUsers r with - | users
  · simp only [joinRoom, userAlreadyInRoom, hm]
    split
    next => simp [rooms_addUser]
    next => rfl
  · rcases hfi : findUserIndex sock.id users with - | i
    · simp only [joinRoom, userAlreadyInRoom, hm, hfi]
      split
      next => simp [rooms_addUser]
      next => rfl
    · simp only [joinRoom, userAlreadyInRoom, hm, hfi]

theorem rooms_leaveRoom (s : HState) (r : String) (sock : Sock)
    (s2 : HState) (tr : List Emit)
    (h : leaveRoom s r sock = Except.ok (s2, tr)) : s2.rooms = s.rooms := by
  rcases hm : mget s.chatUsers r with - | users
  · simp [leaveRoom, removeUserFromServerStorage, hm] at h
  · rcases hfi : findUserIndex sock.id users with - | i <;>
    · simp only [leaveRoom, removeUserFromServerStorage, hm, hfi,
        Except.ok.injEq, Prod.mk.injEq] at h
      rw [← h.1]

theorem mem_rooms_step (s : HState) (e : InEvent) (r : String)
    (h : r ∈ s.rooms) : r ∈ (stepState s e).rooms := by
  cases e with
  | addRoom r2 sock =>
      simp only [stepState, stepE]
      unfold addRoom
      split
      next => exact h
      next =>
        rw [rooms_addUser]
        exact List.mem_append_left _ h
  | joinRoom r2 sock =>
      simp only [stepState, stepE]
      rw [rooms_joinRoom]
      exact h
  | leaveRoom r2 sock =>
      rcases hh : leaveRoom s r2 sock with e2 | p
      · simp only [stepState, stepE, hh]
        exact h
      · simp only [stepState, stepE, hh]
        rw [rooms_leaveRoom s r2 sock p.1 p.2 (by rw [hh])]
        exact h
  | newMessage args sock => exact h
  | disconnect sock =>
      simp only [stepState, stepE]
      rw [rooms_disconnectUser]
      exact h

/-! ## The claims -/

/-- C1: after every membership-changing operation (`add_room`, `join_room`,
`leave_room`, disconnect), the `room_users_list` event is the last emission
of the operation and its `chatUsers` payload is the membership list after
the mutation, never the pre-mutation list. -/
theorem roster_broadcast_last_and_post_mutation (s : HState)
    (h : Reachable s) (r : String) (sock : Sock) : RosterLastSpec s r sock := by
  refine ⟨?_, ?_, ?_, ?_, ?_⟩
  · unfold addRoom
    split
    next hc =>
      intro hne
      exact absurd rfl hne
    next hc =>
      intro _
      rfl
  · rcases hm : mget s.chatUsers r with - | users
    · simp only [joinRoom, userAlreadyInRoom, hm]
      split
      next hc =>
        intro _
        rfl
      next hc =>
        intro hne
        exact absurd rfl hne
    · rcases hfi : findUserIndex sock.id users with - | i
      · simp only [joinRoom, userAlreadyInRoom, hm, hfi]
        split
        next hc =>
          intro _
          rfl
        next hc =>
          intro hne
          exact absurd rfl hne
      · simp only [joinRoom, userAlreadyInRoom, hm, hfi]
        intro hne
        exact absurd rfl hne
  · intro s2 tr hok hne
    rcases hm : mget s.chatUsers r with - | users
    · simp [leaveRoom, removeUserFromServerStorage, hm] at hok
    · rcases hfi : findUserIndex sock.id users with - | i <;>
      · simp only [leaveRoom, removeUserFromServerStorage, hm, hfi,
          Except.ok.injEq, Prod.mk.injEq] at hok
        rw [← hok.1, ← hok.2]
        simp [hm]
  · intro hne
    rcases trace_disconnectLoop sock s.chatUsers s with h2 | ⟨pre, r2, cu, h2⟩
    · exact absurd h2 hne
    · refine ⟨r2, cu, ?_⟩
      have h3 : (disconnectUser s sock).2 =
          pre ++ [Emit.toRoomAll r2 (OutMsg.roomUsersList cu r2)] := h2
      rw [h3]
      simp
  · intro r2 cu hmem
    exact roster_payload_disconnectLoop sock s.chatUsers s
      (reachable_good s h).keysNodup r2 cu hmem

/-- C1 witness: the theorem applied at the concrete reachable state `s1`. -/
theorem roster_broadcast_last_and_post_mutation_witness :
    Reachable s1 ∧ RosterLastSpec s1 "a" sockA :=
  ⟨reachable_s1, roster_broadcast_last_and_post_mutation s1 reachable_s1 "a" sockA⟩

/-- C2: in every reachable state, a session id occurs at most once in any
room's membership list, however many `join_room` or `add_room` events the
session sent. -/
theorem membership_at_most_once (s : HState) (h : Reachable s) :
    ∀ r sid, (((members s r).map (fun u => u.userId)).count sid) ≤ 1 := by
  intro r sid
  exact List.nodup_iff_count_le_one.mp ((reachable_good s h).perRoomNodup r) sid

/-- C2 witness: the theorem applied at the concrete reachable state `s1`. -/
theorem membership_at_most_once_witness :
    Reachable s1 ∧ (((members s1 "a").map (fun u => u.userId)).count "u2") ≤ 1 :=
  ⟨reachable_s1, membership_at_most_once s1 reachable_s1 "a" "u2"⟩

/-- C3: in every reachable state a disconnect removes the session from every
room, emits the disconnect system message and the post-sweep roster for
every room the session belonged to, and processes every entry of the map
(two emissions per entry) — it never stops early and skips no broadcast. -/
theorem disconnect_full_sweep (s : HState) (h : Reachable s) (sock : Sock) :
    DisconnectSweepSpec s sock := by
  have hg := reachable_good s h
  have hfin := chatUsers_disconnectUser s sock hg
  refine ⟨?_, ?_, ?_⟩
  · intro r
    rw [hfin, mget_map_procEntry]
    rcases hm : mget s.chatUsers r with - | us
    · simp
    · simp only [Option.map_some', Option.getD_some]
      refine procUsers_not_mem sock.id us ?_
      have h2 := hg.perRoomNodup r
      rw [members, hm] at h2
      simpa using h2
  · intro r hmem
    rcases hm : mget s.chatUsers r with - | us
    · rw [members, hm] at hmem
      simp at hmem
    · have hin : (r, some us) ∈ s.chatUsers := mem_of_mget_some _ _ _ hm
      have hemits := emits_disconnectLoop sock s.chatUsers s hg.allSome r (some us) hin
      refine ⟨hemits.1, ?_⟩
      rcases hemits.2 with ⟨cu, hcu⟩
      exact ⟨cu, hcu,
        roster_payload_disconnectLoop sock s.chatUsers s hg.keysNodup r cu hcu⟩
  · exact length_disconnectLoop sock s.chatUsers s hg.allSome

/-- C3 witness: the theorem applied at `s1` for the member session B. -/
theorem disconnect_full_sweep_witness :
    Reachable s1 ∧ DisconnectSweepSpec s1 sockB :=
  ⟨reachable_s1, disconnect_full_sweep s1 reachable_s1 sockB⟩

/-- C4 counterexample: in the reachable state `s1` (room `a` holding only
session B), a disconnect of session A — which was never a member of `a` —
still emits the disconnect system message and a roster to room `a`, so the
claim that only rooms the session belonged to receive events is false. -/
theorem disconnect_broadcasts_to_nonmember_room_cex :
    sockA.id ∉ (members s1 "a").map (fun u => u.userId)
    ∧ (disconnectUser s1 sockA).2 =
      [Emit.toRoomAll "a" (OutMsg.userLeftChat (getId 0)
         "User A has disconnected" "a" true),
       Emit.toRoomAll "a" (OutMsg.roomUsersList
         (some [{ userName := "B", userId := "u2" }]) "a")] :=
  ⟨by decide, rfl⟩

/-- C4 amended: a disconnect emits its system message and roster to every
room present in the membership map — including rooms the session never
belonged to — and targets no room outside the map. -/
theorem disconnect_broadcasts_every_mapped_room (s : HState)
    (h : Reachable s) (sock : Sock) : DisconnectBroadcastSpec s sock := by
  have hg := reachable_good s h
  refine ⟨?_, ?_⟩
  · intro r hr
    rcases List.mem_map.mp hr with ⟨p, hp, hp2⟩
    rcases hv : p.2 with - | us
    · have h2 := hg.allSome p hp
      rw [hv] at h2
      simp at h2
    · have hpr : p = (r, some us) := by
        cases p
        simp_all
    
      rw [hpr] at hp
      exact emits_disconnectLoop sock s.chatUsers s hg.allSome r (some us) hp
  · intro r m hm
    exact emitRoom_disconnectLoop sock s.chatUsers s r m hm

/-- C4 amended witness: the theorem applied at `s1` for the non-member
session A. -/
theorem disconnect_broadcasts_every_mapped_room_witness :
    Reachable s1 ∧ DisconnectBroadcastSpec s1 sockA :=
  ⟨reachable_s1, disconnect_broadcasts_every_mapped_room s1 reachable_s1 sockA⟩

/-- C5 counterexample: in the reachable state `s1`, session A is not a
member of room `a`, yet its `leave_room` completes with the `has left`
system message and a roster emitted; and a `leave_room` for a room with no
membership record at all throws instead of completing harmlessly.  Both
refute the claim that a non-member leave emits nothing and never errors. -/
theorem leave_room_nonmember_still_broadcasts_cex :
    sockA.id ∉ (members s1 "a").map (fun u => u.userId)
    ∧ leaveRoom s1 "a" sockA = Except.ok ({ s1 with nextId := 1 },
        [Emit.toRoomExceptRequester "a" (OutMsg.userLeftChat (getId 0)
           "User A has left chat" "a" true),
         Emit.toRoomAll "a" (OutMsg.roomUsersList
           (some [{ userName := "B", userId := "u2" }]) "a")])
    ∧ leaveRoom initState "ghost" sockA =
        Except.error JsError.typeErrorFindIndexOfUndefined :=
  ⟨by decide, rfl, rfl⟩

/-- C5 amended: a `leave_room` for a room whose stored membership list does
not contain the session leaves the membership state unchanged and completes
without error, but still emits the `has left` system message and the
(unchanged) roster; a `leave_room` for a room with no stored membership
list throws a TypeError, emitting nothing and changing nothing. -/
theorem leave_room_nonmember_amended (s : HState) (r : String) (sock : Sock) :
    (mget s.chatUsers r = none →
      leaveRoom s r sock = Except.error JsError.typeErrorFindIndexOfUndefined)
    ∧ (∀ v, mget s.chatUsers r = some v →
        sock.id ∉ v.map (fun u => u.userId) →
        leaveRoom s r sock = Except.ok ({ s with nextId := s.nextId + 1 },
          [Emit.toRoomExceptRequester r (OutMsg.userLeftChat (getId s.nextId)
             ("User " ++ sock.clientName ++ " has left chat") r true),
           Emit.toRoomAll r (OutMsg.roomUsersList (some v) r)])) := by
  constructor
  · intro hm
    simp [leaveRoom, removeUserFromServerStorage, hm]
  · intro v hm hnot
    have hfi : findUserIndex sock.id v = none :=
      (findUserIndex_eq_none_iff _ _).mpr hnot
    simp [leaveRoom, removeUserFromServerStorage, hm, hfi]

/-- C5 amended witness: the theorem applied at the concrete states
`initState` (missing record: TypeError) and `s1` (non-member leave: events
still emitted, membership unchanged). -/
theorem leave_room_nonmember_amended_witness :
    (mget initState.chatUsers "ghost" = none
      ∧ leaveRoom initState "ghost" sockA =
          Except.error JsError.typeErrorFindIndexOfUndefined)
    ∧ (mget s1.chatUsers "a" = some [{ userName := "B", userId := "u2" }]
      ∧ sockA.id ∉ ([{ userName := "B", userId := "u2" }] : List UserEntry).map
          (fun u => u.userId)
      ∧ leaveRoom s1 "a" sockA = Except.ok ({ s1 with nextId := s1.nextId + 1 },
          [Emit.toRoomExceptRequester "a" (OutMsg.userLeftChat (getId s1.nextId)
             ("User " ++ sockA.clientName ++ " has left chat") "a" true),
           Emit.toRoomAll "a" (OutMsg.roomUsersList
             (some [{ userName := "B", userId := "u2" }]) "a")])) :=
  ⟨⟨rfl, (leave_room_nonmember_amended initState "ghost" sockA).1 rfl⟩,
   ⟨rfl, by decide,
    (leave_room_nonmember_amended s1 "a" sockA).2
      [{ userName := "B", userId := "u2" }] rfl (by decide)⟩⟩

/-- C6: an `add_room` whose name is already in the room directory emits only
the `room_already_exist` notice to the requester and leaves the whole state
(directory and every membership list) unchanged; a fresh name is inserted
with `room_created` emitted; and the directory only ever grows, so across
any sequence of `add_room` events with one name exactly the first
succeeds. -/
theorem add_room_exactly_first_succeeds (s : HState) (r : String) (sock : Sock) :
    (r ∈ s.rooms →
      addRoom s r sock =
        (s, [Emit.toRequester (OutMsg.roomAlreadyExist "Room with this name already exist")]))
    ∧ (r ∉ s.rooms →
        (addRoom s r sock).1.rooms = s.rooms ++ [r]
        ∧ (addRoom s r sock).2 =
          [Emit.toRequester (OutMsg.roomCreated r),
           Emit.toRequester (OutMsg.roomUsersList
             (mget (addRoom s r sock).1.chatUsers r) r)])
    ∧ (∀ e : InEvent, r ∈ s.rooms → r ∈ (stepState s e).rooms) := by
  refine ⟨?_, ?_, fun e h => mem_rooms_step s e r h⟩
  · intro hmem
    have hc : s.rooms.contains r = true := by simp_all
    unfold addRoom
    rw [if_pos hc]
  · intro hnot
    have hc : s.rooms.contains r = false := by simp_all
    simp only [addRoom, hc, Bool.false_eq_true, if_false]
    exact ⟨by rw [rooms_addUser], by trivial⟩

/-- C6 witness: the theorem applied at `initState` (first `add_room "a"`
succeeds) and at `s1` (the second one is rejected with no state change). -/
theorem add_room_exactly_first_succeeds_witness :
    ("a" ∉ initState.rooms
      ∧ (addRoom initState "a" sockB).1.rooms = initState.rooms ++ ["a"])
    ∧ ("a" ∈ s1.rooms
      ∧ addRoom s1 "a" sockA =
        (s1, [Emit.toRequester (OutMsg.roomAlreadyExist "Room with this name already exist")])) :=
  ⟨⟨by decide, ((add_room_exactly_first_succeeds initState "a" sockB).2.1 (by decide)).1⟩,
   ⟨by decide, (add_room_exactly_first_succeeds s1 "a" sockA).1 (by decide)⟩⟩

/-- C7: at the concrete reachable state `s1`, a `new_message` event throws
the ReferenceError (the identifier `Message` is unbound in
src/SocketHandler.js), so the handler emits nothing and the state is
unchanged — the claimed single `new_message_in_room` user envelope is never
sent.  Additionally, the emit statement sitting behind the throwing line
would copy the client-supplied `args.system` into `messageSystem` (here the
absent field, `none`) rather than set `isSystem = false`. -/
theorem new_message_handler_throws_cex :
    newMessage s1 { messageText := "hi", messageRoomName := "general", system := none } sockB
      = Except.error JsError.referenceErrorMessageIsNotDefined
    ∧ stepState s1 (InEvent.newMessage
        { messageText := "hi", messageRoomName := "general", system := none } sockB) = s1
    ∧ newMessageUnreachableEmit s1
        { messageText := "hi", messageRoomName := "general", system := none } sockB "t0"
      = Emit.toRoomAll "general"
          (OutMsg.newMessageInRoomUser (getId 0) "t0" "general" "hi" "B" none) :=
  ⟨rfl, rfl, rfl⟩

/-- C8: the `Message` classes of src/Message.js generate no identifier at
construction — the base serialization has no `messageId` field at all and
the `UserMessage` serialization carries `undefined` — while the variant in
src/unnamed/part_000 draws exactly one identifier at construction and every
serialization carries that same stored identifier. -/
theorem message_identifier_generation_bug :
    ((MessageJs.Message.construct "t0" "x" "r").toJson.lookup "messageId" = none)
    ∧ ((MessageJs.UserMessage.construct "t0" "hi" "general" "B").toJson.lookup "messageId"
        = some JVal.undef)
    ∧ ((Part000.Message.construct 0 "t0" "x" "r").1.toJson.lookup "messageId"
        = some (JVal.str (getId 0)))
    ∧ ((Part000.UserMessage.construct 0 "t0" "hi" "general" "B").1.toJson.lookup "messageId"
        = some (JVal.str (getId 0)))
    ∧ ((Part000.UserMessage.construct 0 "t0" "hi" "general" "B").2 = 0 + 1) :=
  ⟨rfl, rfl, rfl, rfl, rfl⟩

/-- C9: in every reachable state every stored value of the membership map is
a defined array, and consequently the disconnect sweep processes all entries
(two emissions per entry) — the early-abort branch of `disconnectUser` never
fires. -/
theorem chat_users_values_always_defined (s : HState) (h : Reachable s) :
    StoredValuesDefined s := by
  have hg := reachable_good s h
  exact ⟨hg.allSome,
    fun sock => length_disconnectLoop sock s.chatUsers s hg.allSome⟩

/-- C9 witness: the theorem applied at the concrete reachable state `s1`. -/
theorem chat_users_values_always_defined_witness :
    Reachable s1 ∧ StoredValuesDefined s1 :=
  ⟨reachable_s1, chat_users_values_always_defined s1 reachable_s1⟩
